import Mathlib

/-!
Verification of the kild session/PTY subsystem against its specification.

The Rust sources are shallowly embedded: byte buffers become `List Nat`,
strings become `List Char`, filesystem state becomes explicit record types,
and fallible operations return `Except`/`Option`. Environmental effects
(clock, path resolution, the serde library, file locks) are passed in as
explicit parameters. Machine integers are `Nat` with explicit `% 2^64`
where the source uses `u64`.
-/

/-! ## Scrollback ring buffer (kild-daemon/src/pty/output.rs) -/

/-- Model of `ScrollbackBuffer`: a `VecDeque<u8>` plus its fixed capacity.
Bytes are modelled as `Nat`. -/
structure ScrollbackBuffer where
  buffer : List Nat
  capacity : Nat
  deriving DecidableEq, Repr

/-- `ScrollbackBuffer::new(capacity)`: asserts `capacity > 0` (a panic is
modelled as `none`), otherwise yields an empty buffer of that capacity. -/
def ScrollbackBuffer.new (capacity : Nat) : Option ScrollbackBuffer :=
  if 0 < capacity then some { buffer := [], capacity := capacity } else none

/-- `ScrollbackBuffer::push(data)`: if `data` alone fills or exceeds capacity,
clear and keep the last `capacity` bytes of `data`; otherwise drain the
minimum number of oldest bytes needed to fit, then extend.
`saturating_sub` is `Nat` subtraction. -/
def ScrollbackBuffer.push (self : ScrollbackBuffer) (data : List Nat) : ScrollbackBuffer :=
  if data.length ≥ self.capacity then
    { self with buffer := data.drop (data.length - self.capacity) }
  else
    let needed := (self.buffer.length + data.length) - self.capacity
    { self with buffer := (self.buffer.drop needed) ++ data }

/-- `ScrollbackBuffer::contents()`: snapshot of the buffered bytes. -/
def ScrollbackBuffer.contents (self : ScrollbackBuffer) : List Nat :=
  self.buffer

/-- Push a sequence of chunks in order. -/
def ScrollbackBuffer.pushAll (self : ScrollbackBuffer) (chunks : List (List Nat)) :
    ScrollbackBuffer :=
  chunks.foldl ScrollbackBuffer.push self

/-- The last `n` elements of a list (all of it when `n ≥ length`). -/
def lastN (n : Nat) (l : List Nat) : List Nat :=
  l.drop (l.length - n)

/-! ## String primitives shared by the Rust standard library model

Rust strings become `List Char`. -/

/-- Characters of a Lean string literal, used to transcribe Rust literals. -/
def lit (s : String) : List Char :=
  s.data

/-- `char::is_whitespace` (the Unicode `White_Space` property), as used by
`str::trim`. -/
def rustIsWhitespace (c : Char) : Bool :=
  let n := c.toNat
  (9 ≤ n && n ≤ 13) || n == 32 || n == 133 || n == 160 || n == 0x1680 ||
    (0x2000 ≤ n && n ≤ 0x200A) || n == 0x2028 || n == 0x2029 || n == 0x202F ||
    n == 0x205F || n == 0x3000

/-- `str::trim`: drop leading and trailing whitespace. -/
def rustTrim (cs : List Char) : List Char :=
  ((cs.dropWhile rustIsWhitespace).reverse.dropWhile rustIsWhitespace).reverse

/-- Strip one trailing carriage return (the `\r` of a `\r\n` line ending),
as `str::lines` does on each newline-terminated line. -/
def stripTrailingCr (l : List Char) : List Char :=
  if l.getLast? = some '\x0d' then l.dropLast else l

/-- `s.lines().next().unwrap_or("")`: the first line of a string — the
prefix before the first `\n` with a trailing `\r` stripped, the whole
string if it has no `\n`, and `""` for the empty string. -/
def firstLine (cs : List Char) : List Char :=
  if cs = [] then []
  else
    let pre := cs.takeWhile (fun c => c ≠ '\n')
    if pre.length = cs.length then pre else stripTrailingCr pre

/-- An ASCII decimal digit, `'0'..='9'`. -/
def isDigitChar (c : Char) : Bool :=
  48 ≤ c.toNat && c.toNat ≤ 57

/-- Fuel-driven core of decimal formatting (`format!("{n}")`); prepends the
digits of `n` to `acc`. Structural in `fuel` so that it evaluates by `rfl`. -/
def decCharsCore : Nat → Nat → List Char → List Char
  | 0, _, acc => acc
  | fuel + 1, n, acc =>
    if n < 10 then Nat.digitChar n :: acc
    else decCharsCore fuel (n / 10) (Nat.digitChar (n % 10) :: acc)

/-- Decimal representation of a `Nat`, as Rust's `format!("{n}")` prints a
`u64`: most-significant digit first, `"0"` for zero, no sign, no padding. -/
def decChars (n : Nat) : List Char :=
  decCharsCore (n + 1) n []

/-- `u64::from_str` accepts one optional leading `+`. -/
def stripLeadingPlus (cs : List Char) : List Char :=
  match cs with
  | [] => []
  | c :: rest => if c = '+' then rest else c :: rest

/-- `str::parse::<u64>()` as an `Option`: after an optional leading `+`,
a non-empty all-digit string whose value fits in a `u64`; anything else
(including overflow) is a parse error, i.e. `none`. -/
def parseU64 (cs : List Char) : Option Nat :=
  let ds := stripLeadingPlus cs
  if ds ≠ [] ∧ ds.all isDigitChar then
    let v := ds.foldl (fun a c => a * 10 + (c.toNat - 48)) 0
    if v < 2 ^ 64 then some v else none
  else none

/-! ## serde_json string/object serialization (as used for `history.jsonl`) -/

/-- serde_json's escaping of one character inside a JSON string: `"` and
`\` get a backslash, the five short control escapes are used where they
exist, remaining control characters become `\u00XX` (lowercase hex), and
everything else is emitted as-is. -/
def jsonEscapeChar (c : Char) : List Char :=
  if c = '"' then ['\\', '"']
  else if c = '\\' then ['\\', '\\']
  else if c.toNat = 8 then ['\\', 'b']
  else if c.toNat = 9 then ['\\', 't']
  else if c.toNat = 10 then ['\\', 'n']
  else if c.toNat = 12 then ['\\', 'f']
  else if c.toNat = 13 then ['\\', 'r']
  else if c.toNat < 32 then
    ['\\', 'u', '0', '0', Nat.digitChar (c.toNat / 16), Nat.digitChar (c.toNat % 16)]
  else [c]

/-- A JSON string literal: quoted, characters escaped. -/
def jsonStr (s : List Char) : List Char :=
  '"' :: ((s.map jsonEscapeChar).flatten ++ ['"'])

/-- Comma-join a list of already-serialized JSON values. -/
def joinComma : List (List Char) → List Char
  | [] => []
  | [x] => x
  | x :: y :: rest => x ++ ',' :: joinComma (y :: rest)

/-- A JSON array of strings, compact form (serde_json `to_string`). -/
def jsonStrArray (ss : List (List Char)) : List Char :=
  '[' :: (joinComma (ss.map jsonStr) ++ [']'])

/-! ## Dropbox protocol (kild-core/src/sessions/dropbox.rs)

Filesystem state of one dropbox directory is explicit: each field models
one file (`none` = the file does not exist). Path resolution
(`KildPaths::resolve`), the clock (`Utc::now`) and I/O failures are
environmental: the clock result is a parameter and the success path of
file I/O is modelled. -/

/-- One entry of the append-only `history.jsonl` audit trail
(`HistoryEntry` in dropbox.rs). -/
structure HistoryEntry where
  dir : List Char
  from_ : List Char
  to_ : List Char
  task_id : Nat
  ts : List Char
  summary : List Char
  delivery : List (List Char)
  deriving DecidableEq, Repr

/-- `serde_json::to_string(&entry)`: compact JSON object, fields in
declaration order (`dir`, `from`, `to`, `task_id`, `ts`, `summary`,
`delivery`). -/
def serializeHistoryEntry (e : HistoryEntry) : List Char :=
  lit "\x7b\"dir\":" ++ jsonStr e.dir ++ lit ",\"from\":" ++ jsonStr e.from_ ++
    lit ",\"to\":" ++ jsonStr e.to_ ++ lit ",\"task_id\":" ++ decChars e.task_id ++
    lit ",\"ts\":" ++ jsonStr e.ts ++ lit ",\"summary\":" ++ jsonStr e.summary ++
    lit ",\"delivery\":" ++ jsonStrArray e.delivery ++ lit "\x7d"

/-- On-disk state of one dropbox directory. -/
structure DropboxState where
  dirExists : Bool
  taskId : Option (List Char)
  taskMd : Option (List Char)
  history : Option (List Char)
  protocolMd : Option (List Char)
  deriving DecidableEq, Repr

/-- The varying inputs of one `write_task` call: the task text, the
delivery methods, and the formatted `Utc::now()` timestamp (environmental). -/
structure WriteCall where
  text : List Char
  delivery : List (List Char)
  ts : List Char
  deriving DecidableEq, Repr

/-- `format!("# Task {new_id}\n\n{text}\n")`. -/
def taskMdContent (n : Nat) (text : List Char) : List Char :=
  lit "# Task " ++ decChars n ++ lit "\n\n" ++ text ++ lit "\n"

/-- The summary recorded by `write_task`:
`text.lines().next().unwrap_or("").chars().take(80)`. -/
def summaryOf (text : List Char) : List Char :=
  (firstLine text).take 80

/-- The `HistoryEntry` built by `write_task` for task `id`. -/
def entryFor (branch : List Char) (id : Nat) (c : WriteCall) : HistoryEntry :=
  { dir := lit "in", from_ := lit "kild", to_ := branch, task_id := id,
    ts := c.ts, summary := summaryOf c.text, delivery := c.delivery }

/-- The current counter as `write_task` reads it:
`fs::read_to_string(task-id).ok().and_then(|s| s.trim().parse().ok()).unwrap_or(0)`. -/
def currentIdOf (st : DropboxState) : Nat :=
  ((st.taskId.map rustTrim).bind parseU64).getD 0

/-- `write_task` (dropbox.rs): no-op returning `none` unless fleet mode is
active and the dropbox directory exists; otherwise increments the
`task-id` counter (u64, hence `% 2^64`), overwrites `task-id` and
`task.md`, and appends one serialized `HistoryEntry` line to
`history.jsonl` (created if missing). -/
def write_task (fleetActive : Bool) (branch : List Char) (c : WriteCall)
    (st : DropboxState) : DropboxState × Option Nat :=
  if fleetActive = false then (st, none)
  else if st.dirExists = false then (st, none)
  else
    let newId := (currentIdOf st + 1) % 2 ^ 64
    ({ st with
        taskId := some (decChars newId ++ lit "\n"),
        taskMd := some (taskMdContent newId c.text),
        history := some (st.history.getD [] ++
          serializeHistoryEntry (entryFor branch newId c) ++ lit "\n") },
      some newId)

/-- A sequence of `write_task` calls in order, collecting the returned
task numbers. -/
def write_tasks (fleetActive : Bool) (branch : List Char) (calls : List WriteCall)
    (st : DropboxState) : DropboxState × List (Option Nat) :=
  match calls with
  | [] => (st, [])
  | c :: rest =>
    let out := write_task fleetActive branch c st
    let rec_ := write_tasks fleetActive branch rest out.1
    (rec_.1, out.2 :: rec_.2)

/-- The history entries a call sequence starting after task `k` appends. -/
def expectedEntries (branch : List Char) : Nat → List WriteCall → List HistoryEntry
  | _, [] => []
  | k, c :: rest => entryFor branch (k + 1) c :: expectedEntries branch (k + 1) rest

/-- Serialize and newline-terminate each line (file contents of a jsonl). -/
def joinLines (ls : List (List Char)) : List Char :=
  (ls.map (fun l => l ++ lit "\n")).flatten

/-- Split at `\n`, keeping an (empty) segment after a trailing newline. -/
def splitLinesAux : List Char → List Char → List (List Char)
  | [], cur => [cur.reverse]
  | c :: rest, cur =>
    if c = '\n' then cur.reverse :: splitLinesAux rest [] else splitLinesAux rest (c :: cur)

/-- `str::lines`: split at `\n`, strip one `\r` from each newline-terminated
line, no final empty line for a trailing newline, empty for `""`. -/
def rustLines (cs : List Char) : List (List Char) :=
  let parts := splitLinesAux cs []
  let body := parts.dropLast.map stripTrailingCr
  match parts.getLast? with
  | some [] => body
  | some last => body ++ [last]
  | none => body

/-- `generate_protocol` (dropbox.rs): the `protocol.md` body with the
absolute dropbox path baked in. -/
def generate_protocol (dropbox : List Char) : List Char :=
  lit "# KILD Fleet Protocol\n\nYou are a worker in a KILD fleet managed by the Honryu brain supervisor.\n\n## Receiving Tasks\n\nYour dropbox: "
    ++ dropbox
    ++ lit "\n\nOn startup and after completing each task:\n1. Read task.md from your dropbox for your current task\n2. Write the task number (from the \"# Task NNN\" heading) to ack\n3. Execute the task fully\n4. Write your results to report.md\n5. Stop and wait for the next instruction\n\n## File Paths\n\n- Task: "
    ++ dropbox ++ lit "/task.md\n- Ack:  " ++ dropbox ++ lit "/ack\n- Report: "
    ++ dropbox
    ++ lit "/report.md\n\n## Rules\n\n- Always read task.md before starting work\n- Always write ack immediately after reading task.md\n- Always write report.md when done\n- Do not modify task.md — it is written by the brain\n"

/-- Modelled from the spec: `fleet::is_fleet_capable_agent` (fleet.rs is
not under src/); per the spec, dropboxes are "created only for
fleet-capable agents (claude)". -/
def is_fleet_capable_agent (agent : String) : Bool :=
  agent == "claude"

/-- `ensure_dropbox` (dropbox.rs): no-op for non-fleet-capable agents or
when fleet mode is inactive (`fleet_mode_active`, fleet.rs not under src/,
is a boolean parameter here); otherwise creates the directory and
(re)writes `protocol.md` from `generate_protocol`. Path-resolution and
I/O failures are environmental warn-and-return paths. -/
def ensure_dropbox (agent : String) (fleetActive : Bool) (dropboxDir : List Char)
    (st : DropboxState) : DropboxState :=
  if !is_fleet_capable_agent agent || !fleetActive then st
  else { st with dirExists := true, protocolMd := some (generate_protocol dropboxDir) }

/-- Modelled from the spec: the summary the spec describes — "the first
non-empty line truncated to N characters" (N = 80) — for comparison with
the implementation's `summaryOf`. -/
def specFirstNonEmptyLineSummary (text : List Char) : List Char :=
  (((rustLines text).filter (fun l => l ≠ [])).headD []).take 80

/-- A fresh dropbox directory as `ensure_dropbox` leaves it: the directory
exists with a `protocol.md` but no `task-id`, `task.md` or `history.jsonl`. -/
def freshDropbox (dropboxDir : List Char) : DropboxState :=
  { dirExists := true, taskId := none, taskMd := none, history := none,
    protocolMd := some (generate_protocol dropboxDir) }

/-! ## Branch-name validation (shards-core/src/sessions/validation.rs) -/

/-- The error cases of `SessionError` used by validation.rs. -/
inductive SessionError where
  | invalidName
  | invalidCommand
  deriving DecidableEq, Repr

/-- `str::contains(&str)`: `pat` occurs as a contiguous subsequence. -/
def containsSeq (pat l : List Char) : Bool :=
  l.tails.any (fun t => pat.isPrefixOf t)

/-- `validate_branch_name` (validation.rs): trim, reject the empty name,
then reject names containing `".."`, starting with `'-'`, or containing a
space; otherwise return the trimmed name. -/
def validate_branch_name (branch : List Char) : Except SessionError (List Char) :=
  let trimmed := rustTrim branch
  if trimmed = [] then Except.error SessionError.invalidName
  else if containsSeq (lit "..") trimmed || trimmed.head? == some '-'
      || trimmed.contains ' ' then
    Except.error SessionError.invalidName
  else Except.ok trimmed

/-! ## IPC client (kild-protocol/src/client.rs) -/

/-- Modelled from the spec: the protocol error-code taxonomy of §4.3
(`ErrorCode` lives in kild-protocol's messages.rs, which is not under
src/). -/
inductive ErrorCode where
  | sessionNotFound
  | sessionAlreadyExists
  | ptySpawnFailed
  | ioError
  | protocolError
  | invalidRequest
  | daemonUnavailable
  | permissionDenied
  | timeout
  deriving DecidableEq, Repr

/-- Modelled from the spec: daemon→client message classes of §4.3
(`DaemonMessage` lives in messages.rs, which is not under src/); the
payloads of the non-`error` variants are irrelevant here. -/
inductive DaemonMessage where
  | ack (id : String)
  | sessionList (id : String) (sessions : List String)
  | ptyOutput (session_id : String) (data_b64 : String)
  | ptyExit (session_id : String) (code : Int)
  | error (id : String) (code : ErrorCode) (message : String)
  | sessionChanged
  deriving DecidableEq, Repr

/-- `IpcError` (client.rs); io-error payloads are irrelevant here. -/
inductive IpcError where
  | notRunning (path : String)
  | connectionFailed
  | daemonError (code : ErrorCode) (message : String)
  | protocolError (message : String)
  | io
  deriving DecidableEq, Repr

/-- The response-handling tail of `IpcConnection::send` (client.rs): after
the request line has been written and one reply line read (both
environmental), an empty line is a protocol error, an unparsable line is a
protocol error, a parsed `DaemonMessage::Error` becomes
`IpcError::DaemonError`, anything else is returned as the response.
`parse` models `serde_json::from_str` (external crate). -/
def ipc_send_reply (parse : String → Option DaemonMessage) (line : String) :
    Except IpcError DaemonMessage :=
  if line = "" then Except.error (IpcError.protocolError "Empty response from daemon")
  else
    match parse line with
    | none => Except.error (IpcError.protocolError "Invalid JSON response")
    | some (DaemonMessage.error _ code message) =>
      Except.error (IpcError.daemonError code message)
    | some m => Except.ok m

/-! ## stats --all batch exit code (kild/src/commands/stats.rs, main.rs) -/

/-- Opaque result of `collect_branch_health` (git plumbing, out of scope). -/
structure BranchHealth where
  deriving DecidableEq, Repr

/-- The per-session inputs of `handle_all_stats`: each listed session's
branch, with health computation as an environment function. -/
structure KildSession where
  branch : String
  deriving DecidableEq, Repr

/-- Modelled from the spec: the value formatted by
`format_partial_failure_error(operation, failed, total)`
(commands/helpers.rs is not under src/); per the spec this reports the
failed sub-operations of a partial batch. -/
structure PartialFailure where
  operation : String
  failed : Nat
  total : Nat
  deriving DecidableEq, Repr

/-- `handle_all_stats` (stats.rs): collect health per session; sessions
whose health computation yields `None` go to the error list; when any
errors exist the call returns the formatted partial-failure error,
otherwise success. Printing is environmental. -/
def handle_all_stats (healthOf : KildSession → Option BranchHealth)
    (sessions : List KildSession) : Except PartialFailure Unit :=
  if sessions = [] then Except.ok ()
  else
    let results := sessions.filterMap healthOf
    let errors : List (String × String) := (sessions.filter (fun s => (healthOf s).isNone)).map
      (fun s => (s.branch, "Could not compute branch health"))
    if errors ≠ [] then
      Except.error
        { operation := "compute stats", failed := errors.length,
          total := results.length + errors.length }
    else Except.ok ()

/-- `main` (main.rs): `run_command` (commands/mod.rs is not under src/;
from its use in main.rs it propagates the handler's `Result`) — any `Err`
makes the process exit with code 1, otherwise 0. -/
def main_exit_code (r : Except PartialFailure Unit) : Nat :=
  match r with
  | Except.ok _ => 0
  | Except.error _ => 1

/-- The process exit code of `kild stats --all` as a function of the
per-session health outcomes. -/
def stats_all_exit (healthOf : KildSession → Option BranchHealth)
    (sessions : List KildSession) : Nat :=
  main_exit_code (handle_all_stats healthOf sessions)

/-- A health environment for the concrete partial-failure scenario: only
the branch named "good" has computable health. -/
def healthOf0 (s : KildSession) : Option BranchHealth :=
  if s.branch = "good" then some {} else none

/-- Two sessions, one with computable health and one without. -/
def sessions0 : List KildSession :=
  [{ branch := "good" }, { branch := "bad" }]

/-! ## Claude inbox injection (kild/src/commands/inject.rs) -/

/-- `write_to_inbox` (inject.rs): read the inbox file if it exists, parse
it as a JSON array of messages (corrupt JSON is an error and nothing is
written), push the new message, and write the serialized array back.
`parse`/`pretty` model `serde_json::from_str`/`to_string_pretty` (external
crate) over abstract message values `V`; directory creation and the
advisory lock are environmental. Returns the resulting file content with
the call's outcome. -/
def write_to_inbox {V : Type} (parse : String → Option (List V))
    (pretty : List V → String) (newMsg : V) (file : Option String) :
    Option String × Except String Unit :=
  match file with
  | none => (some (pretty ([] ++ [newMsg])), Except.ok ())
  | some raw =>
    match parse raw with
    | none => (some raw, Except.error "inbox is corrupt")
    | some msgs => (some (pretty (msgs ++ [newMsg])), Except.ok ())

/-- Concrete parse environment for the inbox witness: only the literal
text "[7]" parses, to the one-element list. -/
def inboxParse0 (s : String) : Option (List Nat) :=
  if s = "[7]" then some [7] else none

/-- Concrete pretty-printer for the inbox witness. -/
def inboxPretty0 (l : List Nat) : String :=
  String.mk (jsonStrArray (l.map (fun n => decChars n)))

theorem lastN_length (n : Nat) (l : List Nat) : (lastN n l).length = min n l.length := by
  simp [lastN]
  omega

theorem lastN_of_length_le (n : Nat) (l : List Nat) (h : l.length ≤ n) : lastN n l = l := by
  simp [lastN, Nat.sub_eq_zero_of_le h]

theorem lastN_append_right (n : Nat) (a d : List Nat) (h : n ≤ d.length) :
    lastN n (a ++ d) = lastN n d := by
  simp only [lastN, List.length_append]
  rw [show a.length + d.length - n = a.length + (d.length - n) by omega,
    List.drop_append_eq_append_drop]
  simp [Nat.sub_eq_zero_of_le]

theorem lastN_append_left (n : Nat) (a d : List Nat) (h : d.length ≤ n) :
    lastN n (a ++ d) = lastN (n - d.length) a ++ d := by
  simp only [lastN, List.length_append]
  rw [show a.length + d.length - n = (a.length - (n - d.length)) + 0 by omega,
    List.drop_append_eq_append_drop]
  simp

theorem lastN_lastN (m n : Nat) (l : List Nat) :
    lastN m (lastN n l) = lastN (min m n) l := by
  simp only [lastN, List.length_drop, List.drop_drop]
  congr 1
  omega

theorem drop_eq_lastN (k : Nat) (l : List Nat) : l.drop k = lastN (l.length - k) l := by
  rcases Nat.le_total k l.length with h | h
  · simp only [lastN]
    congr 1
    omega
  · rw [List.drop_eq_nil_of_le h, show l.length - k = 0 by omega]
    simp [lastN, List.drop_length]

theorem lastN_min_self (n : Nat) (l : List Nat) : lastN (min l.length n) l = lastN n l := by
  simp only [lastN]
  congr 1
  omega

/-- One `push` step preserves the ring-buffer invariant: if the buffer holds
the last `C` bytes of everything pushed so far (`A`), then after pushing `d`
it holds the last `C` bytes of `A ++ d`. -/
theorem push_step (C : Nat) (A d : List Nat) :
    ScrollbackBuffer.push { buffer := lastN C A, capacity := C } d =
      { buffer := lastN C (A ++ d), capacity := C } := by
  by_cases hd : d.length ≥ C
  · simp only [ScrollbackBuffer.push, if_pos hd]
    rw [lastN_append_right C A d hd]
    rfl
  · push_neg at hd
    simp only [ScrollbackBuffer.push, if_neg (not_le.mpr hd)]
    rw [lastN_append_left C A d (le_of_lt hd)]
    congr 1
    rw [lastN_length, drop_eq_lastN, lastN_length, lastN_lastN]
    rcases Nat.le_total C A.length with hCA | hCA
    · rw [min_eq_left hCA, min_eq_left (by omega : C - (C + d.length - C) ≤ C),
        show C - (C + d.length - C) = C - d.length by omega]
    · rw [min_eq_right hCA,
        min_eq_left (by omega : A.length - (A.length + d.length - C) ≤ C)]
      by_cases hfit : A.length + d.length ≤ C
      · rw [Nat.sub_eq_zero_of_le hfit, Nat.sub_zero,
          lastN_of_length_le _ _ (le_refl _), lastN_of_length_le _ _ (by omega)]
      · rw [show A.length - (A.length + d.length - C) = C - d.length by omega]

/-- Folding pushes over a chunk list keeps the last-`C`-bytes invariant. -/
theorem pushAll_inv (C : Nat) (chunks : List (List Nat)) :
    ∀ A : List Nat,
      ScrollbackBuffer.pushAll { buffer := lastN C A, capacity := C } chunks =
        { buffer := lastN C (A ++ chunks.flatten), capacity := C } := by
  induction chunks with
  | nil => intro A; simp [ScrollbackBuffer.pushAll]
  | cons c rest ih =>
    intro A
    simp only [ScrollbackBuffer.pushAll, List.foldl_cons]
    rw [push_step C A c]
    have := ih (A ++ c)
    simp only [ScrollbackBuffer.pushAll] at this
    rw [this]
    simp [List.flatten_cons, List.append_assoc]

example :
    ((ScrollbackBuffer.pushAll { buffer := [], capacity := 8 }
      [[104, 101, 108, 108, 111, 32], [119, 111, 114, 108, 100]]).contents)
    = [108, 111, 32, 119, 111, 114, 108, 100] := by decide

example :
    ((ScrollbackBuffer.pushAll { buffer := [], capacity := 3 }
      [[97, 98, 99, 100, 101, 102, 103, 104, 105, 106]]).contents)
    = [104, 105, 106] := by decide

/-- C1: for every capacity `C > 0` and every finite sequence of byte chunks
pushed in order into a `ScrollbackBuffer` of capacity `C` with total length
`T`, `contents()` afterwards returns exactly the last `min(T, C)` bytes of
the concatenation of the chunks, and `contents().len() = min(T, C)`. -/
theorem scrollback_contents_eq_lastN (C : Nat) (hC : 0 < C) (chunks : List (List Nat)) :
    (ScrollbackBuffer.pushAll { buffer := [], capacity := C } chunks).contents
        = lastN (min (chunks.flatten).length C) chunks.flatten
      ∧ (ScrollbackBuffer.pushAll { buffer := [], capacity := C } chunks).contents.length
        = min (chunks.flatten).length C := by
  have h0 : ({ buffer := [], capacity := C } : ScrollbackBuffer)
      = { buffer := lastN C [], capacity := C } := by
    simp [lastN]
  rw [h0, pushAll_inv C chunks []]
  simp only [List.nil_append, ScrollbackBuffer.contents]
  refine ⟨(lastN_min_self C chunks.flatten).symm, ?_⟩
  rw [lastN_length, min_comm]

/-- Witness for C1 at the spec's own example: capacity 8, pushes
`"hello "` then `"world"` (as bytes). -/
theorem scrollback_contents_eq_lastN_witness :
    (0 : Nat) < 8 ∧
    ((ScrollbackBuffer.pushAll { buffer := [], capacity := 8 }
        [[104, 101, 108, 108, 111, 32], [119, 111, 114, 108, 100]]).contents
      = lastN (min ([[104, 101, 108, 108, 111, 32], [119, 111, 114, 108, 100]].flatten).length 8)
          [[104, 101, 108, 108, 111, 32], [119, 111, 114, 108, 100]].flatten
    ∧ (ScrollbackBuffer.pushAll { buffer := [], capacity := 8 }
        [[104, 101, 108, 108, 111, 32], [119, 111, 114, 108, 100]]).contents.length
      = min ([[104, 101, 108, 108, 111, 32], [119, 111, 114, 108, 100]].flatten).length 8) :=
  ⟨by decide,
   scrollback_contents_eq_lastN 8 (by decide)
     [[104, 101, 108, 108, 111, 32], [119, 111, 114, 108, 100]]⟩

/-- C8: `ScrollbackBuffer::new(c)` produces a buffer iff `c > 0` (the
assertion failure for `c = 0` is modelled as `none`), and every buffer it
produces has strictly positive capacity. -/
theorem scrollback_new_iff_pos (c : Nat) :
    ((ScrollbackBuffer.new c).isSome ↔ 0 < c)
      ∧ ∀ b : ScrollbackBuffer, ScrollbackBuffer.new c = some b → 0 < b.capacity := by
  constructor
  · unfold ScrollbackBuffer.new
    split <;> simp_all
  · intro b hb
    unfold ScrollbackBuffer.new at hb
    split at hb
    · cases hb
      simpa using ‹0 < c›
    · cases hb

/-- Witness for C8: capacity 1 is accepted and yields positive capacity;
capacity 0 is rejected. -/
theorem scrollback_new_iff_pos_witness :
    0 < ({ buffer := [], capacity := 1 } : ScrollbackBuffer).capacity
      ∧ ScrollbackBuffer.new 0 = none :=
  ⟨(scrollback_new_iff_pos 1).2 { buffer := [], capacity := 1 } (by decide), by decide⟩

/-! ### Decimal formatting and parsing -/

theorem decCharsCore_append (fuel : Nat) :
    ∀ n acc, decCharsCore fuel n acc = decCharsCore fuel n [] ++ acc := by
  induction fuel with
  | zero => intro n acc; simp [decCharsCore]
  | succ fuel ih =>
    intro n acc
    simp only [decCharsCore]
    by_cases h : n < 10
    · simp [h]
    · simp only [if_neg h]
      rw [ih (n / 10) (Nat.digitChar (n % 10) :: acc), ih (n / 10) [Nat.digitChar (n % 10)]]
      simp

theorem decCharsCore_fuel (n : Nat) :
    ∀ fuel₁ fuel₂, n < fuel₁ → n < fuel₂ →
      decCharsCore fuel₁ n [] = decCharsCore fuel₂ n [] := by
  induction n using Nat.strong_induction_on with
  | _ n ih =>
    intro fuel₁ fuel₂ h₁ h₂
    match fuel₁, fuel₂ with
    | f₁ + 1, f₂ + 1 =>
      simp only [decCharsCore]
      by_cases h : n < 10
      · simp [h]
      · simp only [if_neg h]
        rw [decCharsCore_append f₁, decCharsCore_append f₂]
        have hdiv : n / 10 < n := Nat.div_lt_self (by omega) (by omega)
        rw [ih (n / 10) hdiv f₁ f₂ (by omega) (by omega)]

theorem decChars_lt (n : Nat) (h : n < 10) : decChars n = [Nat.digitChar n] := by
  simp [decChars, decCharsCore, h]

theorem decChars_ge (n : Nat) (h : 10 ≤ n) :
    decChars n = decChars (n / 10) ++ [Nat.digitChar (n % 10)] := by
  have hdiv : n / 10 < n := Nat.div_lt_self (by omega) (by omega)
  have h1 : decChars n = decCharsCore n (n / 10) [Nat.digitChar (n % 10)] := by
    simp only [decChars, decCharsCore, if_neg (by omega : ¬ n < 10)]
  rw [h1, decCharsCore_append n,
    decCharsCore_fuel (n / 10) n (n / 10 + 1) (by omega) (by omega)]
  rfl

theorem digitChar_toNat : ∀ d, d < 10 → (Nat.digitChar d).toNat = 48 + d := by decide

theorem isDigitChar_digitChar : ∀ d, d < 10 → isDigitChar (Nat.digitChar d) = true := by decide

theorem decChars_all_digit (n : Nat) : ∀ c ∈ decChars n, isDigitChar c = true := by
  induction n using Nat.strong_induction_on with
  | _ n ih =>
    by_cases h : n < 10
    · rw [decChars_lt n h]
      intro c hc
      simp only [List.mem_singleton] at hc
      subst hc
      exact isDigitChar_digitChar n h
    · rw [decChars_ge n (by omega)]
      intro c hc
      rcases List.mem_append.mp hc with hc | hc
      · exact ih (n / 10) (Nat.div_lt_self (by omega) (by omega)) c hc
      · simp only [List.mem_singleton] at hc
        subst hc
        exact isDigitChar_digitChar (n % 10) (Nat.mod_lt _ (by omega))

theorem decChars_ne_nil (n : Nat) : decChars n ≠ [] := by
  by_cases h : n < 10
  · rw [decChars_lt n h]; simp
  · rw [decChars_ge n (by omega)]; simp

theorem decChars_foldl (n : Nat) :
    (decChars n).foldl (fun a c => a * 10 + (c.toNat - 48)) 0 = n := by
  induction n using Nat.strong_induction_on with
  | _ n ih =>
    by_cases h : n < 10
    · rw [decChars_lt n h]
      simp [List.foldl_cons, digitChar_toNat n h]
    · rw [decChars_ge n (by omega), List.foldl_append]
      rw [ih (n / 10) (Nat.div_lt_self (by omega) (by omega))]
      simp only [List.foldl_cons, List.foldl_nil]
      rw [digitChar_toNat (n % 10) (Nat.mod_lt _ (by omega))]
      omega

theorem stripLeadingPlus_of_digits (ds : List Char) (h : ds.all isDigitChar = true) :
    stripLeadingPlus ds = ds := by
  cases ds with
  | nil => rfl
  | cons c rest =>
    simp only [stripLeadingPlus]
    have hc : isDigitChar c = true := by
      simp only [List.all_cons, Bool.and_eq_true] at h
      exact h.1
    have : c ≠ '+' := by
      intro he
      subst he
      simp [isDigitChar] at hc
    simp [this]

theorem parseU64_decChars (n : Nat) (h : n < 2 ^ 64) : parseU64 (decChars n) = some n := by
  have hall : (decChars n).all isDigitChar = true :=
    List.all_eq_true.mpr (fun c hc => decChars_all_digit n c hc)
  simp only [parseU64, stripLeadingPlus_of_digits _ hall]
  rw [if_pos ⟨decChars_ne_nil n, hall⟩, decChars_foldl n, if_pos h]

/-! ### Trimming -/

theorem not_whitespace_of_digit (c : Char) (h : isDigitChar c = true) :
    rustIsWhitespace c = false := by
  simp only [isDigitChar, Bool.and_eq_true, decide_eq_true_eq] at h
  simp only [rustIsWhitespace, Bool.or_eq_false_iff, Bool.and_eq_false_iff,
    beq_eq_false_iff_ne, ne_eq, decide_eq_false_iff_not, not_le]
  omega

theorem dropWhile_ws_of_digits (l : List Char) (hne : l ≠ [])
    (hall : ∀ c ∈ l, isDigitChar c = true) :
    l.dropWhile rustIsWhitespace = l := by
  cases l with
  | nil => exact absurd rfl hne
  | cons c rest =>
    have : rustIsWhitespace c = false :=
      not_whitespace_of_digit c (hall c (List.mem_cons_self c rest))
    simp [List.dropWhile_cons, this]

theorem rustTrim_digits_newline (ds : List Char) (hne : ds ≠ [])
    (hall : ∀ c ∈ ds, isDigitChar c = true) :
    rustTrim (ds ++ lit "\n") = ds := by
  have hlit : lit "\n" = ['\n'] := rfl
  have hfront : (ds ++ ['\n']).dropWhile rustIsWhitespace = ds ++ ['\n'] := by
    cases ds with
    | nil => exact absurd rfl hne
    | cons c rest =>
      have : rustIsWhitespace c = false :=
        not_whitespace_of_digit c (hall c (List.mem_cons_self c rest))
      simp [List.dropWhile_cons, this]
  have hrev : (ds ++ ['\n']).reverse = '\n' :: ds.reverse := by
    simp
  have hwsnl : rustIsWhitespace '\n' = true := by decide
  have hback : ('\n' :: ds.reverse).dropWhile rustIsWhitespace = ds.reverse := by
    rw [List.dropWhile_cons]
    simp only [hwsnl, if_pos]
    exact dropWhile_ws_of_digits ds.reverse (by simpa using hne)
      (fun c hc => hall c (List.mem_reverse.mp hc))
  rw [rustTrim, hlit, hfront, hrev, hback, List.reverse_reverse]

theorem rustTrim_decChars_newline (k : Nat) :
    rustTrim (decChars k ++ lit "\n") = decChars k :=
  rustTrim_digits_newline (decChars k) (decChars_ne_nil k) (decChars_all_digit k)

theorem currentIdOf_some (st : DropboxState) (k : Nat) (hk : k < 2 ^ 64)
    (h : st.taskId = some (decChars k ++ lit "\n")) : currentIdOf st = k := by
  simp [currentIdOf, h, rustTrim_decChars_newline, parseU64_decChars k hk]

/-! ### Line splitting -/

theorem getLast?_mem {α : Type} (l : List α) (a : α) (h : l.getLast? = some a) : a ∈ l := by
  induction l with
  | nil => simp at h
  | cons c rest ih =>
    cases hr : rest with
    | nil =>
      subst hr
      simp only [List.getLast?_singleton, Option.some.injEq] at h
      simp [h]
    | cons d rest' =>
      rw [hr] at h ih
      rw [List.getLast?_cons_cons] at h
      exact List.mem_cons_of_mem c (ih h)

theorem stripTrailingCr_of_no_cr (l : List Char) (h : '\x0d' ∉ l) :
    stripTrailingCr l = l := by
  rw [stripTrailingCr, if_neg]
  intro hcontra
  exact h (getLast?_mem l '\x0d' hcontra)

theorem splitLinesAux_line (e : List Char) (he : '\n' ∉ e) :
    ∀ rest cur, splitLinesAux (e ++ '\n' :: rest) cur
      = (cur.reverse ++ e) :: splitLinesAux rest [] := by
  induction e with
  | nil =>
    intro rest cur
    simp [splitLinesAux]
  | cons c e' ih =>
    intro rest cur
    have hc : c ≠ '\n' := by
      intro hcontra
      exact he (hcontra ▸ List.mem_cons_self c e')
    have he' : '\n' ∉ e' := fun hx => he (List.mem_cons_of_mem c hx)
    simp only [List.cons_append, splitLinesAux, if_neg hc, List.append_eq]
    rw [ih he' rest (c :: cur)]
    simp

theorem splitLinesAux_joinLines (ls : List (List Char))
    (h : ∀ l ∈ ls, '\n' ∉ l) :
    splitLinesAux (joinLines ls) [] = ls ++ [[]] := by
  induction ls with
  | nil => simp [joinLines, splitLinesAux]
  | cons l rest ih =>
    have hl : '\n' ∉ l := h l (List.mem_cons_self l rest)
    have hrest : ∀ x ∈ rest, '\n' ∉ x := fun x hx => h x (List.mem_cons_of_mem l hx)
    have hjoin : joinLines (l :: rest) = l ++ '\n' :: joinLines rest := by
      simp [joinLines, lit]
    rw [hjoin, splitLinesAux_line l hl (joinLines rest) [], ih hrest]
    simp

theorem rustLines_joinLines (ls : List (List Char))
    (h : ∀ l ∈ ls, '\n' ∉ l ∧ '\x0d' ∉ l) :
    rustLines (joinLines ls) = ls := by
  rw [rustLines, splitLinesAux_joinLines ls (fun l hl => (h l hl).1)]
  simp only [List.getLast?_concat, List.dropLast_concat]
  have hmap : ∀ l' ∈ ls, stripTrailingCr l' = id l' := fun l' hl' =>
    stripTrailingCr_of_no_cr l' (h l' hl').2
  rw [List.map_congr_left hmap, List.map_id]

/-! ### Serialized history lines contain no line breaks -/

theorem digitChar_ne_ctl : ∀ d, d < 16 →
    Nat.digitChar d ≠ '\n' ∧ Nat.digitChar d ≠ '\x0d' := by decide

theorem jsonEscapeChar_not_ctl (c x : Char) (hx : x ∈ jsonEscapeChar c) :
    x ≠ '\n' ∧ x ≠ '\x0d' := by
  unfold jsonEscapeChar at hx
  split_ifs at hx with h1 h2 h3 h4 h5 h6 h7 h8
  all_goals try { revert x; decide }
  · simp only [List.mem_cons, List.not_mem_nil, or_false] at hx
    rcases hx with rfl | rfl | rfl | rfl | rfl | rfl
    · decide
    · decide
    · decide
    · decide
    · exact digitChar_ne_ctl (c.toNat / 16) (by omega)
    · exact digitChar_ne_ctl (c.toNat % 16) (by omega)
  · simp only [List.mem_cons, List.not_mem_nil, or_false] at hx
    subst hx
    constructor
    · intro hc; rw [hc] at h8; simp at h8
    · intro hc; rw [hc] at h8; simp at h8

theorem jsonStr_not_ctl (s : List Char) (x : Char) (hx : x ∈ jsonStr s) :
    x ≠ '\n' ∧ x ≠ '\x0d' := by
  simp only [jsonStr, List.mem_cons, List.mem_append, List.mem_singleton,
    List.mem_flatten, List.mem_map, List.not_mem_nil, or_false] at hx
  rcases hx with rfl | ⟨⟨l, ⟨c, _, rfl⟩, hxl⟩⟩ | rfl
  · decide
  · exact jsonEscapeChar_not_ctl c x hxl
  · decide

theorem joinComma_mem (ls : List (List Char)) (x : Char) (hx : x ∈ joinComma ls) :
    x = ',' ∨ ∃ l ∈ ls, x ∈ l := by
  induction ls with
  | nil => simp [joinComma] at hx
  | cons a tail ih =>
    cases tail with
    | nil =>
      simp only [joinComma] at hx
      right
      exact ⟨a, List.mem_singleton.mpr rfl, hx⟩
    | cons b tail' =>
      simp only [joinComma, List.mem_append, List.mem_cons] at hx
      rcases hx with hx | rfl | hx
      · right; exact ⟨a, List.mem_cons_self a _, hx⟩
      · left; rfl
      · rcases ih hx with h | ⟨l, hl, hxl⟩
        · left; exact h
        · right; exact ⟨l, List.mem_cons_of_mem a hl, hxl⟩

theorem jsonStrArray_not_ctl (ss : List (List Char)) (x : Char)
    (hx : x ∈ jsonStrArray ss) : x ≠ '\n' ∧ x ≠ '\x0d' := by
  simp only [jsonStrArray, List.mem_cons, List.mem_append, List.mem_singleton,
    List.not_mem_nil, or_false] at hx
  rcases hx with rfl | hx | rfl
  · decide
  · rcases joinComma_mem _ x hx with rfl | ⟨l, hl, hxl⟩
    · decide
    · rcases List.mem_map.mp hl with ⟨s, _, rfl⟩
      exact jsonStr_not_ctl s x hxl
  · decide

theorem decChars_not_ctl (n : Nat) (x : Char) (hx : x ∈ decChars n) :
    x ≠ '\n' ∧ x ≠ '\x0d' := by
  have hd := decChars_all_digit n x hx
  simp only [isDigitChar, Bool.and_eq_true, decide_eq_true_eq] at hd
  constructor
  · intro h; rw [h] at hd; revert hd; decide
  · intro h; rw [h] at hd; revert hd; decide

theorem serializeHistoryEntry_not_ctl (e : HistoryEntry) (x : Char)
    (hx : x ∈ serializeHistoryEntry e) : x ≠ '\n' ∧ x ≠ '\x0d' := by
  simp only [serializeHistoryEntry, List.mem_append] at hx
  rcases hx with (((((((((((((hx | hx) | hx) | hx) | hx) | hx) | hx) | hx) | hx) | hx) | hx) |
    hx) | hx) | hx) | hx
  · exact (by decide : ∀ y ∈ lit "\x7b\"dir\":", y ≠ '\n' ∧ y ≠ '\x0d') x hx
  · exact jsonStr_not_ctl e.dir x hx
  · exact (by decide : ∀ y ∈ lit ",\"from\":", y ≠ '\n' ∧ y ≠ '\x0d') x hx
  · exact jsonStr_not_ctl e.from_ x hx
  · exact (by decide : ∀ y ∈ lit ",\"to\":", y ≠ '\n' ∧ y ≠ '\x0d') x hx
  · exact jsonStr_not_ctl e.to_ x hx
  · exact (by decide : ∀ y ∈ lit ",\"task_id\":", y ≠ '\n' ∧ y ≠ '\x0d') x hx
  · exact decChars_not_ctl e.task_id x hx
  · exact (by decide : ∀ y ∈ lit ",\"ts\":", y ≠ '\n' ∧ y ≠ '\x0d') x hx
  · exact jsonStr_not_ctl e.ts x hx
  · exact (by decide : ∀ y ∈ lit ",\"summary\":", y ≠ '\n' ∧ y ≠ '\x0d') x hx
  · exact jsonStr_not_ctl e.summary x hx
  · exact (by decide : ∀ y ∈ lit ",\"delivery\":", y ≠ '\n' ∧ y ≠ '\x0d') x hx
  · exact jsonStrArray_not_ctl e.delivery x hx
  · exact (by decide : ∀ y ∈ lit "\x7d", y ≠ '\n' ∧ y ≠ '\x0d') x hx

theorem serializeHistoryEntry_noNl (e : HistoryEntry) :
    '\n' ∉ serializeHistoryEntry e ∧ '\x0d' ∉ serializeHistoryEntry e := by
  constructor
  · intro hmem
    exact (serializeHistoryEntry_not_ctl e _ hmem).1 rfl
  · intro hmem
    exact (serializeHistoryEntry_not_ctl e _ hmem).2 rfl

/-! ### The write_task step and call sequences -/

theorem write_task_fields (branch : List Char) (c : WriteCall) (st : DropboxState)
    (h1 : st.dirExists = true) (hlt : currentIdOf st + 1 < 2 ^ 64) :
    (write_task true branch c st).2 = some (currentIdOf st + 1)
      ∧ (write_task true branch c st).1.dirExists = true
      ∧ (write_task true branch c st).1.taskId
          = some (decChars (currentIdOf st + 1) ++ lit "\n")
      ∧ (write_task true branch c st).1.taskMd
          = some (taskMdContent (currentIdOf st + 1) c.text)
      ∧ (write_task true branch c st).1.history.getD []
          = st.history.getD []
            ++ serializeHistoryEntry (entryFor branch (currentIdOf st + 1) c) ++ lit "\n"
      ∧ (write_task true branch c st).1.protocolMd = st.protocolMd := by
  have hmod : (currentIdOf st + 1) % 18446744073709551616 = currentIdOf st + 1 :=
    Nat.mod_eq_of_lt (by omega)
  simp [write_task, h1, hmod]

theorem write_tasks_go (branch : List Char) (calls : List WriteCall) :
    ∀ k st, st.dirExists = true → currentIdOf st = k → k + calls.length < 2 ^ 64 →
      (write_tasks true branch calls st).2
          = (List.range calls.length).map (fun i => some (k + 1 + i))
        ∧ (write_tasks true branch calls st).1.dirExists = true
        ∧ currentIdOf (write_tasks true branch calls st).1 = k + calls.length
        ∧ (calls ≠ [] → (write_tasks true branch calls st).1.taskId
            = some (decChars (k + calls.length) ++ lit "\n"))
        ∧ (write_tasks true branch calls st).1.history.getD []
            = st.history.getD []
              ++ joinLines ((expectedEntries branch k calls).map serializeHistoryEntry)
        ∧ (∀ c', calls.getLast? = some c' → (write_tasks true branch calls st).1.taskMd
            = some (taskMdContent (k + calls.length) c'.text)) := by
  induction calls with
  | nil =>
    intro k st h1 h2 h3
    simp [write_tasks, expectedEntries, joinLines, h1, h2]
  | cons c rest ih =>
    intro k st h1 h2 h3
    have hlt : currentIdOf st + 1 < 2 ^ 64 := by
      simp only [List.length_cons] at h3
      omega
    obtain ⟨hr, hd, htid, hmd, hhist, hproto⟩ := write_task_fields branch c st h1 hlt
    set st1 := (write_task true branch c st).1 with hst1
    have hcur1 : currentIdOf st1 = k + 1 := by
      rw [h2] at htid
      exact currentIdOf_some st1 (k + 1) (h2 ▸ hlt) htid
    have h3' : (k + 1) + rest.length < 2 ^ 64 := by
      simp only [List.length_cons] at h3
      omega
    obtain ⟨ihr, ihd, ihcur, ihtid, ihhist, ihmd⟩ := ih (k + 1) st1 hd hcur1 h3'
    have hfst : (write_tasks true branch (c :: rest) st).1
        = (write_tasks true branch rest st1).1 := by
      simp [write_tasks]
    have hsnd : (write_tasks true branch (c :: rest) st).2
        = (write_task true branch c st).2 :: (write_tasks true branch rest st1).2 := by
      simp [write_tasks]
    have hlen : k + (c :: rest).length = (k + 1) + rest.length := by
      simp only [List.length_cons]
      omega
    refine ⟨?_, ?_, ?_, ?_, ?_, ?_⟩
    · rw [hsnd, hr, h2, ihr]
      simp only [List.length_cons]
      rw [List.range_succ_eq_map, List.map_cons, List.map_map]
      congr 1
      apply List.map_congr_left
      intro i _
      simp only [Function.comp_apply, Option.some.injEq]
      omega
    · rw [hfst]; exact ihd
    · rw [hfst, ihcur, hlen]
    · intro _
      rw [hfst, hlen]
      by_cases hrest : rest = []
      · subst hrest
        simp only [write_tasks, List.length_nil, Nat.add_zero]
        rw [h2] at htid
        exact htid
      · exact ihtid hrest
    · rw [hfst, ihhist, hhist, h2]
      have hexp : expectedEntries branch k (c :: rest)
          = entryFor branch (k + 1) c :: expectedEntries branch (k + 1) rest := rfl
      rw [hexp, List.map_cons]
      have hjoin : joinLines
            (serializeHistoryEntry (entryFor branch (k + 1) c)
              :: (expectedEntries branch (k + 1) rest).map serializeHistoryEntry)
          = (serializeHistoryEntry (entryFor branch (k + 1) c) ++ lit "\n")
            ++ joinLines ((expectedEntries branch (k + 1) rest).map serializeHistoryEntry) := by
        simp [joinLines]
      rw [hjoin]
      simp [List.append_assoc]
    · intro c' hc'
      rw [hfst, hlen]
      by_cases hrest : rest = []
      · subst hrest
        simp only [List.getLast?_singleton, Option.some.injEq] at hc'
        subst hc'
        simp only [write_tasks, List.length_nil, Nat.add_zero]
        rw [h2] at hmd
        exact hmd
      · have hlast : rest.getLast? = some c' := by
          obtain ⟨r, rest', rfl⟩ := List.exists_cons_of_ne_nil hrest
          rwa [List.getLast?_cons_cons] at hc'
        exact ihmd c' hlast

theorem expectedEntries_task_id (branch : List Char) (calls : List WriteCall) :
    ∀ k, (expectedEntries branch k calls).map HistoryEntry.task_id
      = (List.range calls.length).map (fun i => k + 1 + i) := by
  induction calls with
  | nil => intro k; simp [expectedEntries]
  | cons c rest ih =>
    intro k
    simp only [expectedEntries, List.map_cons, List.length_cons]
    rw [List.range_succ_eq_map, List.map_cons, List.map_map, ih (k + 1)]
    have hhead : (entryFor branch (k + 1) c).task_id = k + 1 + 0 := by simp [entryFor]
    have htail : List.map (fun i => k + 1 + 1 + i) (List.range rest.length)
        = List.map ((fun i => k + 1 + i) ∘ Nat.succ) (List.range rest.length) := by
      apply List.map_congr_left
      intro i _
      simp only [Function.comp_apply, Nat.succ_eq_add_one]
      omega
    rw [hhead, htail]

theorem expectedEntries_length (branch : List Char) (calls : List WriteCall) :
    ∀ k, (expectedEntries branch k calls).length = calls.length := by
  induction calls with
  | nil => intro k; simp [expectedEntries]
  | cons c rest ih => intro k; simp [expectedEntries, ih (k + 1)]

/-- C2 (amended): starting from a dropbox directory that exists but has no
`task-id` file and no `history.jsonl`, after every non-empty sequence of
`N < 2^64` `write_task` calls (fleet mode active, same project/branch) each
call succeeds returning `Some i` for `i = 1..N`, the `task-id` file holds
the decimal `N` plus newline, `task.md` starts with `# Task N`, and
`history.jsonl` holds exactly `N` lines, each the serialization of a
`HistoryEntry` whose `task_id` values are `1..N` in order. -/
theorem dropbox_write_task_sequence (branch : List Char) (calls : List WriteCall)
    (st : DropboxState) (h1 : st.dirExists = true) (h2 : st.taskId = none)
    (h3 : st.history = none) (h4 : calls ≠ []) (h5 : calls.length < 2 ^ 64) :
    (write_tasks true branch calls st).2
        = (List.range calls.length).map (fun i => some (i + 1))
      ∧ (write_tasks true branch calls st).1.taskId
          = some (decChars calls.length ++ lit "\n")
      ∧ (∃ t, (write_tasks true branch calls st).1.taskMd
          = some (lit "# Task " ++ decChars calls.length ++ t))
      ∧ rustLines ((write_tasks true branch calls st).1.history.getD [])
          = (expectedEntries branch 0 calls).map serializeHistoryEntry
      ∧ (rustLines ((write_tasks true branch calls st).1.history.getD [])).length
          = calls.length
      ∧ (expectedEntries branch 0 calls).map HistoryEntry.task_id
          = (List.range calls.length).map (fun i => i + 1) := by
  have hcur : currentIdOf st = 0 := by simp [currentIdOf, h2]
  obtain ⟨hr, _, _, htid, hhist, hmd⟩ :=
    write_tasks_go branch calls 0 st h1 hcur (by omega)
  have hlines : rustLines ((write_tasks true branch calls st).1.history.getD [])
      = (expectedEntries branch 0 calls).map serializeHistoryEntry := by
    rw [hhist, h3]
    simp only [Option.getD_none, List.nil_append]
    apply rustLines_joinLines
    intro l hl
    rcases List.mem_map.mp hl with ⟨e, _, rfl⟩
    exact serializeHistoryEntry_noNl e
  refine ⟨?_, ?_, ?_, hlines, ?_, ?_⟩
  · rw [hr]
    apply List.map_congr_left
    intro i _
    simp only [Option.some.injEq]
    omega
  · rw [htid h4, Nat.zero_add]
  · obtain ⟨c', hc'⟩ := Option.isSome_iff_exists.mp (List.getLast?_isSome.mpr h4)
    rw [hmd c' hc', Nat.zero_add]
    exact ⟨lit "\n\n" ++ c'.text ++ lit "\n", by simp [taskMdContent, List.append_assoc]⟩
  · rw [hlines, List.length_map, expectedEntries_length]
  · rw [expectedEntries_task_id branch calls 0]
    apply List.map_congr_left
    intro i _
    omega

/-- Counterexample to C2 as stated: a dropbox directory that exists and has
no `task-id` file but a pre-existing one-line `history.jsonl`; one
successful `write_task` call (fleet active) returns `Some 1`, yet
`history.jsonl` then has 2 lines, not exactly `N = 1`. -/
theorem dropbox_write_task_sequence_counterexample :
    ({ dirExists := true, taskId := none, taskMd := none,
       history := some (lit "junk\n"), protocolMd := none } : DropboxState).taskId = none
    ∧ (write_task true (lit "w")
        { text := lit "a", delivery := [lit "dropbox"], ts := lit "T" }
        { dirExists := true, taskId := none, taskMd := none,
          history := some (lit "junk\n"), protocolMd := none }).2 = some 1
    ∧ (rustLines ((write_task true (lit "w")
        { text := lit "a", delivery := [lit "dropbox"], ts := lit "T" }
        { dirExists := true, taskId := none, taskMd := none,
          history := some (lit "junk\n"), protocolMd := none }).1.history.getD [])).length
        = 2 := by
  decide

/-- Witness for C2 (amended) at the spec's scenario 3 shape: two calls on a
fresh dropbox. -/
theorem dropbox_write_task_sequence_witness :
    (freshDropbox (lit "/d")).dirExists = true
    ∧ (freshDropbox (lit "/d")).taskId = none
    ∧ (freshDropbox (lit "/d")).history = none
    ∧ ((write_tasks true (lit "w")
          [{ text := lit "First task", delivery := [lit "dropbox"], ts := lit "T1" },
           { text := lit "Second task", delivery := [lit "dropbox", lit "pty"], ts := lit "T2" }]
          (freshDropbox (lit "/d"))).2
        = (List.range
            ([{ text := lit "First task", delivery := [lit "dropbox"], ts := lit "T1" },
              { text := lit "Second task", delivery := [lit "dropbox", lit "pty"],
                ts := lit "T2" }] : List WriteCall).length).map (fun i => some (i + 1))
      ∧ (write_tasks true (lit "w")
          [{ text := lit "First task", delivery := [lit "dropbox"], ts := lit "T1" },
           { text := lit "Second task", delivery := [lit "dropbox", lit "pty"], ts := lit "T2" }]
          (freshDropbox (lit "/d"))).1.taskId
        = some (decChars
            ([{ text := lit "First task", delivery := [lit "dropbox"], ts := lit "T1" },
              { text := lit "Second task", delivery := [lit "dropbox", lit "pty"],
                ts := lit "T2" }] : List WriteCall).length ++ lit "\n")
      ∧ (∃ t, (write_tasks true (lit "w")
          [{ text := lit "First task", delivery := [lit "dropbox"], ts := lit "T1" },
           { text := lit "Second task", delivery := [lit "dropbox", lit "pty"], ts := lit "T2" }]
          (freshDropbox (lit "/d"))).1.taskMd
        = some (lit "# Task " ++ decChars
            ([{ text := lit "First task", delivery := [lit "dropbox"], ts := lit "T1" },
              { text := lit "Second task", delivery := [lit "dropbox", lit "pty"],
                ts := lit "T2" }] : List WriteCall).length ++ t))
      ∧ rustLines ((write_tasks true (lit "w")
          [{ text := lit "First task", delivery := [lit "dropbox"], ts := lit "T1" },
           { text := lit "Second task", delivery := [lit "dropbox", lit "pty"], ts := lit "T2" }]
          (freshDropbox (lit "/d"))).1.history.getD [])
        = (expectedEntries (lit "w") 0
            [{ text := lit "First task", delivery := [lit "dropbox"], ts := lit "T1" },
             { text := lit "Second task", delivery := [lit "dropbox", lit "pty"],
               ts := lit "T2" }]).map serializeHistoryEntry
      ∧ (rustLines ((write_tasks true (lit "w")
          [{ text := lit "First task", delivery := [lit "dropbox"], ts := lit "T1" },
           { text := lit "Second task", delivery := [lit "dropbox", lit "pty"], ts := lit "T2" }]
          (freshDropbox (lit "/d"))).1.history.getD [])).length
        = ([{ text := lit "First task", delivery := [lit "dropbox"], ts := lit "T1" },
            { text := lit "Second task", delivery := [lit "dropbox", lit "pty"],
              ts := lit "T2" }] : List WriteCall).length
      ∧ (expectedEntries (lit "w") 0
            [{ text := lit "First task", delivery := [lit "dropbox"], ts := lit "T1" },
             { text := lit "Second task", delivery := [lit "dropbox", lit "pty"],
               ts := lit "T2" }]).map HistoryEntry.task_id
        = (List.range
            ([{ text := lit "First task", delivery := [lit "dropbox"], ts := lit "T1" },
              { text := lit "Second task", delivery := [lit "dropbox", lit "pty"],
                ts := lit "T2" }] : List WriteCall).length).map (fun i => i + 1)) :=
  ⟨rfl, rfl, rfl,
   dropbox_write_task_sequence (lit "w")
     [{ text := lit "First task", delivery := [lit "dropbox"], ts := lit "T1" },
      { text := lit "Second task", delivery := [lit "dropbox", lit "pty"], ts := lit "T2" }]
     (freshDropbox (lit "/d")) rfl rfl rfl (by decide) (by decide)⟩

/-- C3 (amended): the summary recorded in the history entry appended by
`write_task` is the *first line* of the task text (which may be empty),
truncated to 80 characters — not the first non-empty line. -/
theorem write_task_summary (branch : List Char) (c : WriteCall) (st : DropboxState)
    (h1 : st.dirExists = true) :
    ∃ e : HistoryEntry,
      (write_task true branch c st).1.history
          = some (st.history.getD [] ++ serializeHistoryEntry e ++ lit "\n")
        ∧ e.summary = (firstLine c.text).take 80
        ∧ e.task_id = (currentIdOf st + 1) % 2 ^ 64 := by
  refine ⟨entryFor branch ((currentIdOf st + 1) % 2 ^ 64) c, ?_, rfl, rfl⟩
  simp [write_task, h1]

/-- Witness for C3 (amended): a concrete call on a fresh dropbox. -/
theorem write_task_summary_witness :
    (freshDropbox (lit "/d")).dirExists = true
    ∧ ∃ e : HistoryEntry,
      (write_task true (lit "w")
          { text := lit "\nhello", delivery := [lit "dropbox"], ts := lit "T" }
          (freshDropbox (lit "/d"))).1.history
          = some ((freshDropbox (lit "/d")).history.getD []
              ++ serializeHistoryEntry e ++ lit "\n")
        ∧ e.summary = (firstLine (lit "\nhello")).take 80
        ∧ e.task_id = (currentIdOf (freshDropbox (lit "/d")) + 1) % 2 ^ 64 :=
  ⟨rfl, write_task_summary (lit "w")
    { text := lit "\nhello", delivery := [lit "dropbox"], ts := lit "T" }
    (freshDropbox (lit "/d")) rfl⟩

/-- Counterexample to C3 as stated: for the text `"\nhello"` (empty first
line, later non-empty line `"hello"`), the summary `write_task` records is
the empty string, not a prefix of `"hello"` as the claim requires. -/
theorem write_task_summary_counterexample :
    summaryOf (lit "\nhello") = []
    ∧ specFirstNonEmptyLineSummary (lit "\nhello") = lit "hello"
    ∧ (write_task true (lit "w")
          { text := lit "\nhello", delivery := [lit "dropbox"], ts := lit "T" }
          (freshDropbox (lit "/d"))).1.history
        = some (serializeHistoryEntry
            { dir := lit "in", from_ := lit "kild", to_ := lit "w", task_id := 1,
              ts := lit "T", summary := [], delivery := [lit "dropbox"] } ++ lit "\n")
    ∧ ([] : List Char) ≠ specFirstNonEmptyLineSummary (lit "\nhello") := by
  decide

/-- C9: when the `task-id` file exists but its trimmed content does not
parse as a `u64`, `write_task` does not fail: it treats the current id as
0, succeeds returning `Some 1`, and overwrites `task-id` with `"1\n"`. -/
theorem write_task_corrupt_task_id (branch : List Char) (c : WriteCall)
    (st : DropboxState) (garbage : List Char) (h1 : st.dirExists = true)
    (h2 : st.taskId = some garbage) (h3 : parseU64 (rustTrim garbage) = none) :
    (write_task true branch c st).2 = some 1
      ∧ (write_task true branch c st).1.taskId = some (lit "1\n") := by
  have hcur : currentIdOf st = 0 := by simp [currentIdOf, h2, h3]
  have hone : (currentIdOf st + 1) % 18446744073709551616 = 1 := by
    rw [hcur]
  refine ⟨?_, ?_⟩ <;> simp [write_task, h1, hone]
  decide

/-- Witness for C9 at the repo's own test input: `task-id` containing
`"garbage"`. -/
theorem write_task_corrupt_task_id_witness :
    ({ dirExists := true, taskId := some (lit "garbage"), taskMd := none,
        history := none, protocolMd := none } : DropboxState).dirExists = true
    ∧ parseU64 (rustTrim (lit "garbage")) = none
    ∧ (write_task true (lit "w")
          { text := lit "Recover", delivery := [lit "dropbox"], ts := lit "T" }
          { dirExists := true, taskId := some (lit "garbage"), taskMd := none,
            history := none, protocolMd := none }).2 = some 1
    ∧ (write_task true (lit "w")
          { text := lit "Recover", delivery := [lit "dropbox"], ts := lit "T" }
          { dirExists := true, taskId := some (lit "garbage"), taskMd := none,
            history := none, protocolMd := none }).1.taskId = some (lit "1\n") :=
  ⟨rfl, by decide,
   (write_task_corrupt_task_id (lit "w")
      { text := lit "Recover", delivery := [lit "dropbox"], ts := lit "T" }
      { dirExists := true, taskId := some (lit "garbage"), taskMd := none,
        history := none, protocolMd := none } (lit "garbage") rfl rfl (by decide)).1,
   (write_task_corrupt_task_id (lit "w")
      { text := lit "Recover", delivery := [lit "dropbox"], ts := lit "T" }
      { dirExists := true, taskId := some (lit "garbage"), taskMd := none,
        history := none, protocolMd := none } (lit "garbage") rfl rfl (by decide)).2⟩

/-- C7: for a fleet-capable agent with fleet mode active, `ensure_dropbox`
twice leaves `protocol.md` byte-identical to the state after the first
call; the content depends only on the dropbox directory path. -/
theorem ensure_dropbox_protocol_idempotent (agent : String) (fleetActive : Bool)
    (dir : List Char) (st : DropboxState)
    (hA : is_fleet_capable_agent agent = true) (hF : fleetActive = true) :
    (ensure_dropbox agent fleetActive dir
        (ensure_dropbox agent fleetActive dir st)).protocolMd
      = (ensure_dropbox agent fleetActive dir st).protocolMd
    ∧ (ensure_dropbox agent fleetActive dir st).protocolMd
      = some (generate_protocol dir) := by
  simp [ensure_dropbox, hA, hF]

/-- Witness for C7: the claude agent, fleet active, on an empty state. -/
theorem ensure_dropbox_protocol_idempotent_witness :
    is_fleet_capable_agent "claude" = true
    ∧ ((ensure_dropbox "claude" true (lit "/home/u/.kild/fleet/p/w")
          (ensure_dropbox "claude" true (lit "/home/u/.kild/fleet/p/w")
            { dirExists := false, taskId := none, taskMd := none,
              history := none, protocolMd := none })).protocolMd
        = (ensure_dropbox "claude" true (lit "/home/u/.kild/fleet/p/w")
            { dirExists := false, taskId := none, taskMd := none,
              history := none, protocolMd := none }).protocolMd
      ∧ (ensure_dropbox "claude" true (lit "/home/u/.kild/fleet/p/w")
            { dirExists := false, taskId := none, taskMd := none,
              history := none, protocolMd := none }).protocolMd
        = some (generate_protocol (lit "/home/u/.kild/fleet/p/w"))) :=
  ⟨rfl, ensure_dropbox_protocol_idempotent "claude" true (lit "/home/u/.kild/fleet/p/w")
    { dirExists := false, taskId := none, taskMd := none,
      history := none, protocolMd := none } rfl rfl⟩

/-- Counterexample to C6 as stated: `"feat~1"` contains `'~'` and
`"bad.lock"` ends in `".lock"` — both invalid per git's reference grammar,
which the claim says must be rejected — yet `validate_branch_name`
accepts both unchanged. -/
theorem validate_branch_name_counterexample :
    '~' ∈ lit "feat~1"
    ∧ validate_branch_name (lit "feat~1") = Except.ok (lit "feat~1")
    ∧ validate_branch_name (lit "bad.lock") = Except.ok (lit "bad.lock") :=
  ⟨by decide, rfl, rfl⟩

/-- C6 (amended): `validate_branch_name` accepts exactly the inputs whose
trimmed form is non-empty, has no `".."`, does not start with `'-'`, and
has no space — other git-invalid shapes (`'~'`, `'^'`, `':'`, `'?'`, `'*'`,
`'['`, a `".lock"` suffix, non-space whitespace) are NOT checked — and on
acceptance it returns the trimmed input verbatim (preserving `/` and
case). -/
theorem validate_branch_name_spec (b : List Char) :
    ((∃ t, validate_branch_name b = Except.ok t)
        ↔ (rustTrim b ≠ [] ∧ containsSeq (lit "..") (rustTrim b) = false
            ∧ ((rustTrim b).head? == some '-') = false
            ∧ (rustTrim b).contains ' ' = false))
      ∧ ∀ t, validate_branch_name b = Except.ok t → t = rustTrim b := by
  constructor
  · constructor
    · rintro ⟨t, ht⟩
      unfold validate_branch_name at ht
      dsimp only at ht
      split_ifs at ht with h1 h2
      have h2' := h2
      simp only [Bool.or_eq_true, not_or, Bool.not_eq_true] at h2'
      exact ⟨h1, h2'.1.1, h2'.1.2, h2'.2⟩
    · rintro ⟨hne, hc1, hc2, hc3⟩
      refine ⟨rustTrim b, ?_⟩
      unfold validate_branch_name
      dsimp only
      rw [if_neg hne, if_neg (by rw [hc1, hc2, hc3]; simp)]
  · intro t ht
    unfold validate_branch_name at ht
    dsimp only at ht
    split_ifs at ht with h1 h2
    exact (Except.ok.inj ht).symm

/-- Witness for C6 (amended): `"  feat/auth "` is accepted as
`"feat/auth"` — trimmed, slash and case preserved. -/
theorem validate_branch_name_spec_witness :
    validate_branch_name (lit "  feat/auth ") = Except.ok (lit "feat/auth")
    ∧ lit "feat/auth" = rustTrim (lit "  feat/auth ") := by
  have htr : rustTrim (lit "  feat/auth ") = lit "feat/auth" := by decide
  obtain ⟨t, ht⟩ := (validate_branch_name_spec (lit "  feat/auth ")).1.mpr
    ⟨by decide, by decide, by decide, by decide⟩
  have ht2 := (validate_branch_name_spec (lit "  feat/auth ")).2 t ht
  rw [ht2, htr] at ht
  exact ⟨ht, htr.symm⟩

/-- C5: whenever the daemon's one-line reply parses to an `Error` message,
`IpcConnection::send` returns `IpcError::DaemonError` carrying that
reply's code and message, and never returns it as a successful response;
in particular a `session_not_found` reply surfaces with that code. -/
theorem ipc_send_error_reply (parse : String → Option DaemonMessage) (line : String)
    (id : String) (code : ErrorCode) (message : String) (hne : line ≠ "")
    (hp : parse line = some (DaemonMessage.error id code message)) :
    ipc_send_reply parse line = Except.error (IpcError.daemonError code message)
      ∧ (∀ m : DaemonMessage, ipc_send_reply parse line ≠ Except.ok m)
      ∧ (code = ErrorCode.sessionNotFound →
          ipc_send_reply parse line
            = Except.error (IpcError.daemonError ErrorCode.sessionNotFound message)) := by
  have hmain : ipc_send_reply parse line
      = Except.error (IpcError.daemonError code message) := by
    unfold ipc_send_reply
    rw [if_neg hne, hp]
  refine ⟨hmain, ?_, ?_⟩
  · intro m hcontra
    rw [hmain] at hcontra
    exact Except.noConfusion hcontra
  · intro hcode
    rw [hmain, hcode]

/-- Witness for C5 at the spec's scenario 4: the daemon replies with a
`session_not_found` error to a `Ping{id:"t1"}`. -/
theorem ipc_send_error_reply_witness :
    ("\x7b\"type\":\"error\",\"id\":\"t1\",\"code\":\"session_not_found\",\"message\":\"none\"\x7d" : String) ≠ ""
    ∧ (ipc_send_reply
        (fun l => if l = "\x7b\"type\":\"error\",\"id\":\"t1\",\"code\":\"session_not_found\",\"message\":\"none\"\x7d"
          then some (DaemonMessage.error "t1" ErrorCode.sessionNotFound "none") else none)
        "\x7b\"type\":\"error\",\"id\":\"t1\",\"code\":\"session_not_found\",\"message\":\"none\"\x7d"
        = Except.error (IpcError.daemonError ErrorCode.sessionNotFound "none")
      ∧ (∀ m : DaemonMessage, ipc_send_reply
          (fun l => if l = "\x7b\"type\":\"error\",\"id\":\"t1\",\"code\":\"session_not_found\",\"message\":\"none\"\x7d"
            then some (DaemonMessage.error "t1" ErrorCode.sessionNotFound "none") else none)
          "\x7b\"type\":\"error\",\"id\":\"t1\",\"code\":\"session_not_found\",\"message\":\"none\"\x7d"
          ≠ Except.ok m)
      ∧ (ErrorCode.sessionNotFound = ErrorCode.sessionNotFound →
          ipc_send_reply
            (fun l => if l = "\x7b\"type\":\"error\",\"id\":\"t1\",\"code\":\"session_not_found\",\"message\":\"none\"\x7d"
              then some (DaemonMessage.error "t1" ErrorCode.sessionNotFound "none") else none)
            "\x7b\"type\":\"error\",\"id\":\"t1\",\"code\":\"session_not_found\",\"message\":\"none\"\x7d"
            = Except.error (IpcError.daemonError ErrorCode.sessionNotFound "none"))) :=
  ⟨by decide,
   ipc_send_error_reply
     (fun l => if l = "\x7b\"type\":\"error\",\"id\":\"t1\",\"code\":\"session_not_found\",\"message\":\"none\"\x7d"
       then some (DaemonMessage.error "t1" ErrorCode.sessionNotFound "none") else none)
     "\x7b\"type\":\"error\",\"id\":\"t1\",\"code\":\"session_not_found\",\"message\":\"none\"\x7d"
     "t1" ErrorCode.sessionNotFound "none" (by decide) (by simp)⟩

/-- Counterexample to C4 as stated: with two sessions of which exactly one
has computable health, `stats --all` ends in the partial-failure error path
yet the process exit code is 1, not 2 (main.rs exits 1 on every `Err`). -/
theorem stats_all_exit_counterexample :
    healthOf0 { branch := "good" } ≠ none
    ∧ healthOf0 { branch := "bad" } = none
    ∧ handle_all_stats healthOf0 sessions0
        = Except.error { operation := "compute stats", failed := 1, total := 2 }
    ∧ stats_all_exit healthOf0 sessions0 = 1
    ∧ stats_all_exit healthOf0 sessions0 ≠ 2 := by
  refine ⟨by decide, by decide, ?_, by decide, by decide⟩
  rfl

/-- C4 (amended): when `stats --all` computes health for some sessions but
fails for at least one, `handle_all_stats` returns the formatted
partial-failure error carrying the failed count, and the process exits
with the generic failure code 1 — exit code 2 is never produced. -/
theorem stats_all_partial_failure_exit (healthOf : KildSession → Option BranchHealth)
    (sessions : List KildSession)
    (hfail : ∃ s ∈ sessions, healthOf s = none)
    (hok : ∃ s ∈ sessions, healthOf s ≠ none) :
    (∃ p : PartialFailure, handle_all_stats healthOf sessions = Except.error p
        ∧ p.failed = (sessions.filter (fun s => (healthOf s).isNone)).length
        ∧ 0 < p.failed)
      ∧ stats_all_exit healthOf sessions = 1 := by
  obtain ⟨s0, hs0, hs0n⟩ := hfail
  have hne : sessions ≠ [] := by
    intro h
    rw [h] at hs0
    exact List.not_mem_nil s0 hs0
  have herr : (sessions.filter (fun s => (healthOf s).isNone)).map
      (fun s => (s.branch, "Could not compute branch health")) ≠ [] := by
    intro h
    rw [List.map_eq_nil_iff] at h
    have : s0 ∈ sessions.filter (fun s => (healthOf s).isNone) :=
      List.mem_filter.mpr ⟨hs0, by simp [hs0n]⟩
    rw [h] at this
    exact List.not_mem_nil s0 this
  have hstats : handle_all_stats healthOf sessions
      = Except.error
          { operation := "compute stats",
            failed := ((sessions.filter (fun s => (healthOf s).isNone)).map
              (fun s => (s.branch, "Could not compute branch health"))).length,
            total := (sessions.filterMap healthOf).length
              + ((sessions.filter (fun s => (healthOf s).isNone)).map
                (fun s => (s.branch, "Could not compute branch health"))).length } := by
    unfold handle_all_stats
    dsimp only
    rw [if_neg hne, if_pos herr]
  refine ⟨⟨_, hstats, ?_, ?_⟩, ?_⟩
  · simp
  · simp only [List.length_map]
    have : s0 ∈ sessions.filter (fun s => (healthOf s).isNone) :=
      List.mem_filter.mpr ⟨hs0, by simp [hs0n]⟩
    exact List.length_pos.mpr (List.ne_nil_of_mem this)
  · unfold stats_all_exit
    rw [hstats]
    rfl

/-- Witness for C4 (amended): the concrete two-session environment. -/
theorem stats_all_partial_failure_exit_witness :
    (∃ s ∈ sessions0, healthOf0 s = none)
    ∧ (∃ s ∈ sessions0, healthOf0 s ≠ none)
    ∧ ((∃ p : PartialFailure, handle_all_stats healthOf0 sessions0 = Except.error p
          ∧ p.failed = (sessions0.filter (fun s => (healthOf0 s).isNone)).length
          ∧ 0 < p.failed)
        ∧ stats_all_exit healthOf0 sessions0 = 1) :=
  ⟨⟨{ branch := "bad" }, by decide, by decide⟩,
   ⟨{ branch := "good" }, by decide, by decide⟩,
   stats_all_partial_failure_exit healthOf0 sessions0
     ⟨{ branch := "bad" }, by decide, by decide⟩
     ⟨{ branch := "good" }, by decide, by decide⟩⟩

/-- C10: `write_to_inbox` appends exactly one message to the parsed inbox
array, preserving all previously stored messages in order; a missing file
starts from the empty array; and when the existing file content does not
parse, it returns an error and the file content is unchanged. -/
theorem write_to_inbox_spec {V : Type} (parse : String → Option (List V))
    (pretty : List V → String) (newMsg : V) (file : Option String) :
    (∀ raw msgs, file = some raw → parse raw = some msgs →
        write_to_inbox parse pretty newMsg file
          = (some (pretty (msgs ++ [newMsg])), Except.ok ()))
      ∧ (∀ raw, file = some raw → parse raw = none →
          write_to_inbox parse pretty newMsg file
            = (file, Except.error "inbox is corrupt"))
      ∧ (file = none →
          write_to_inbox parse pretty newMsg file
            = (some (pretty [newMsg]), Except.ok ())) := by
  refine ⟨?_, ?_, ?_⟩
  · rintro raw msgs rfl hparse
    simp [write_to_inbox, hparse]
  · rintro raw rfl hparse
    simp [write_to_inbox, hparse]
  · rintro rfl
    simp [write_to_inbox]

/-- Witness for C10: concrete environments for all three branches — an
inbox holding `[7]`, a corrupt inbox, and a missing inbox file. -/
theorem write_to_inbox_spec_witness :
    (write_to_inbox inboxParse0 inboxPretty0 9 (some "[7]")
        = (some (inboxPretty0 ([7] ++ [9])), Except.ok ()))
      ∧ (write_to_inbox inboxParse0 inboxPretty0 9 (some "oops")
          = (some "oops", Except.error "inbox is corrupt"))
      ∧ (write_to_inbox inboxParse0 inboxPretty0 9 none
          = (some (inboxPretty0 [9]), Except.ok ())) :=
  ⟨(write_to_inbox_spec inboxParse0 inboxPretty0 9 (some "[7]")).1 "[7]" [7] rfl (by decide),
   (write_to_inbox_spec inboxParse0 inboxPretty0 9 (some "oops")).2.1 "oops" rfl (by decide),
   (write_to_inbox_spec inboxParse0 inboxPretty0 9 none).2.2 rfl⟩
